import Mathlib

/-!
# Verification of the Andikar backend core subsystem

Shallow embedding of the rate-limiting, usage-accounting and heuristic
AI-content-detection subsystem of the `andikar-backend-api` repository,
together with theorems settling the specification's claims about it.

* The sliding-window rate limiter is embedded from `rate_limit_middleware`
  in `main.py` (timestamps as rationals, the persistent store as a map
  from keys to optional records).
* The usage-statistics update is embedded from the `UsageStat` upsert
  blocks of the `/api/humanize` and `/api/detect` handlers in `main.py`.
* The heuristic detector is embedded from the inline detection algorithm
  of the `/api/detect` handler in `app.py` (the deterministic variant that
  the deployment entrypoints serve as the primary application), with real
  numbers standing in for Python floats.
-/

namespace Andikar

/-- A row of the `rate_limits` table (`models.py`): the stored list of
request timestamps for one key, plus the time of the last write.
Timestamps are epoch seconds, modelled as rationals. -/
structure RateLimitRecord where
  requests : List ℚ
  last_updated : ℚ
deriving DecidableEq, Repr

/-- The configuration the middleware reads (`Settings` in `main.py`):
`RATE_LIMIT_PERIOD` is the window length in seconds, `RATE_LIMIT_REQUESTS`
the maximum number of requests per window. -/
structure RateLimitSettings where
  RATE_LIMIT_PERIOD : ℚ
  RATE_LIMIT_REQUESTS : ℕ
deriving DecidableEq, Repr

/-- The pruning step of `rate_limit_middleware` (`main.py`, line 190):
`requests = [req for req in rate_limit.requests if now - req < settings.RATE_LIMIT_PERIOD]`. -/
def pruneRequests (period now : ℚ) (reqs : List ℚ) : List ℚ :=
  reqs.filter (fun req => decide (now - req < period))

/-- The admit/reject decision of the middleware. -/
inductive RateLimitDecision where
  | allow
  | reject
deriving DecidableEq, Repr

/-- The per-key body of `rate_limit_middleware` (`main.py`, lines 186-212):
given the current time and the stored record for the caller's key (or
`none` when the key has never been seen), produce the decision and the
record as it is left in the store.  On the reject path the source returns
a 429 response without committing, so the stored record is unchanged; on
the admit path the pruned list with `now` appended is committed; a fresh
key gets the singleton record `[now]` committed without any limit check. -/
def rateLimitCheck (s : RateLimitSettings) (now : ℚ) :
    Option RateLimitRecord → RateLimitDecision × Option RateLimitRecord
  | some rl =>
      let requests := pruneRequests s.RATE_LIMIT_PERIOD now rl.requests
      if s.RATE_LIMIT_REQUESTS ≤ requests.length then
        (RateLimitDecision.reject, some rl)
      else
        (RateLimitDecision.allow, some ⟨requests ++ [now], now⟩)
  | none => (RateLimitDecision.allow, some ⟨[now], now⟩)

/-- Outcome of the middleware as seen by the client: the request either
proceeds to the wrapped handler or is answered with HTTP 429. -/
inductive MiddlewareOutcome where
  | proceed
  | throttled429
deriving DecidableEq, Repr

/-- Python's `str.startswith`: the candidate is a character-list prefix
of the string. -/
def pyStartsWith (s pre : String) : Bool :=
  pre.data.isPrefixOf s.data

/-- The path exemption test at the top of `rate_limit_middleware`
(`main.py`, lines 171-172). -/
def exemptPath (path : String) : Bool :=
  (path == "/docs" || path == "/redoc" || path == "/openapi.json" ||
    path == "/" || path == "/health") ||
  pyStartsWith path "/admin" || pyStartsWith path "/static"

/-- The whole of `rate_limit_middleware` (`main.py`, lines 169-218) in the
failure-free case, acting on a store mapping keys to optional records:
exempt paths skip straight to the handler, otherwise the record for
`key` (API key if present, else client IP) is checked and updated. -/
def rate_limit_middleware (s : RateLimitSettings) (path key : String) (now : ℚ)
    (store : String → Option RateLimitRecord) :
    MiddlewareOutcome × (String → Option RateLimitRecord) :=
  if exemptPath path then
    (MiddlewareOutcome.proceed, store)
  else
    match rateLimitCheck s now (store key) with
    | (RateLimitDecision.allow, rec) =>
        (MiddlewareOutcome.proceed, fun k => if k = key then rec else store k)
    | (RateLimitDecision.reject, _) =>
        (MiddlewareOutcome.throttled429, store)

/-- C3: the rate limiter's pruning step keeps all and only the stored
timestamps `t` with `now - t < window_seconds` (so it removes exactly
those with `now - t >= window_seconds`), preserves the relative order of
the survivors (the result is a sublist of the input), and preserves
multiplicity of each surviving value. -/
theorem pruneRequests_correct (period now : ℚ) (l : List ℚ) :
    (pruneRequests period now l).Sublist l ∧
    (∀ t : ℚ, t ∈ pruneRequests period now l ↔ t ∈ l ∧ now - t < period) ∧
    (∀ t : ℚ, (pruneRequests period now l).count t =
      if now - t < period then l.count t else 0) := by
  refine ⟨List.filter_sublist l, fun t => ?_, fun t => ?_⟩
  · simp [pruneRequests]
  · by_cases h : now - t < period
    · rw [if_pos h, pruneRequests, List.count_filter]
      simpa using h
    · rw [if_neg h, pruneRequests, List.count_eq_zero]
      intro hmem
      exact h (by simpa using (List.of_mem_filter hmem))

/-- C8: when the stored record for the key exists and its pruned timestamp
list is already at or above `RATE_LIMIT_REQUESTS`, the middleware answers
429, `now` is not appended, and the store is left completely unchanged for
every key (in particular the pruned list is not persisted on this path). -/
theorem reject_path_leaves_store_unchanged (s : RateLimitSettings)
    (path key : String) (now : ℚ) (store : String → Option RateLimitRecord)
    (r : RateLimitRecord)
    (hpath : exemptPath path = false)
    (hrec : store key = some r)
    (hfull : s.RATE_LIMIT_REQUESTS ≤
      (pruneRequests s.RATE_LIMIT_PERIOD now r.requests).length) :
    (rate_limit_middleware s path key now store).1 = MiddlewareOutcome.throttled429 ∧
    ∀ k, (rate_limit_middleware s path key now store).2 k = store k := by
  have hcheck : rateLimitCheck s now (store key) =
      (RateLimitDecision.reject, some r) := by
    rw [hrec, rateLimitCheck]
    simp only [if_pos hfull]
  rw [rate_limit_middleware, if_neg (by simp [hpath]), hcheck]
  exact ⟨rfl, fun _ => rfl⟩

/-- C8 witness: a concrete saturated record (limit 1, one recent
timestamp) on a non-exempt path is throttled and the store is untouched. -/
theorem reject_path_leaves_store_unchanged_witness :
    (exemptPath "/api/detect" = false ∧
      (fun k => if k = "key1" then some (⟨[(5 : ℚ)], 5⟩ : RateLimitRecord) else none) "key1" =
        some (⟨[(5 : ℚ)], 5⟩ : RateLimitRecord) ∧
      (⟨60, 1⟩ : RateLimitSettings).RATE_LIMIT_REQUESTS ≤
        (pruneRequests (⟨60, 1⟩ : RateLimitSettings).RATE_LIMIT_PERIOD 10
          (⟨[(5 : ℚ)], 5⟩ : RateLimitRecord).requests).length) ∧
    ((rate_limit_middleware ⟨60, 1⟩ "/api/detect" "key1" 10
        (fun k => if k = "key1" then some ⟨[(5 : ℚ)], 5⟩ else none)).1 =
      MiddlewareOutcome.throttled429 ∧
    ∀ k, (rate_limit_middleware ⟨60, 1⟩ "/api/detect" "key1" 10
        (fun k => if k = "key1" then some ⟨[(5 : ℚ)], 5⟩ else none)).2 k =
      (fun k => if k = "key1" then some (⟨[(5 : ℚ)], 5⟩ : RateLimitRecord) else none) k) :=
  ⟨⟨by decide, by decide, by norm_num [pruneRequests]⟩,
    reject_path_leaves_store_unchanged ⟨60, 1⟩ "/api/detect" "key1" 10
      (fun k => if k = "key1" then some ⟨[(5 : ℚ)], 5⟩ else none) ⟨[(5 : ℚ)], 5⟩
      (by decide) (by decide) (by norm_num [pruneRequests])⟩

/-- C9: a request whose path is `/docs`, `/redoc`, `/openapi.json`, `/` or
`/health`, or whose path starts with `/admin` or `/static`, bypasses the
rate limiter entirely: the store is unchanged at every key and the request
is never answered 429, no matter what the store holds. -/
theorem exempt_paths_bypass_rate_limiter (s : RateLimitSettings)
    (path key : String) (now : ℚ) (store : String → Option RateLimitRecord)
    (hpath : path ∈ ["/docs", "/redoc", "/openapi.json", "/", "/health"] ∨
      pyStartsWith path "/admin" = true ∨ pyStartsWith path "/static" = true) :
    (rate_limit_middleware s path key now store).1 = MiddlewareOutcome.proceed ∧
    ∀ k, (rate_limit_middleware s path key now store).2 k = store k := by
  have hex : exemptPath path = true := by
    rcases hpath with h | h | h
    · simp only [List.mem_cons, List.mem_singleton, List.not_mem_nil, or_false] at h
      rcases h with rfl | rfl | rfl | rfl | rfl <;> rfl
    · simp [exemptPath, h]
    · simp [exemptPath, h]
  rw [rate_limit_middleware, if_pos hex]
  exact ⟨rfl, fun _ => rfl⟩

/-- C9 witness: `/health` bypasses the limiter even when the caller's
stored window is fully saturated. -/
theorem exempt_paths_bypass_rate_limiter_witness :
    ("/health" ∈ ["/docs", "/redoc", "/openapi.json", "/", "/health"] ∨
      pyStartsWith "/health" "/admin" = true ∨
      pyStartsWith "/health" "/static" = true) ∧
    ((rate_limit_middleware ⟨60, 1⟩ "/health" "key1" 10
        (fun _ => some ⟨[(5 : ℚ), 6, 7], 7⟩)).1 = MiddlewareOutcome.proceed ∧
    ∀ k, (rate_limit_middleware ⟨60, 1⟩ "/health" "key1" 10
        (fun _ => some ⟨[(5 : ℚ), 6, 7], 7⟩)).2 k =
      (fun _ => some (⟨[(5 : ℚ), 6, 7], 7⟩ : RateLimitRecord)) k) :=
  ⟨Or.inl (by decide),
    exempt_paths_bypass_rate_limiter ⟨60, 1⟩ "/health" "key1" 10
      (fun _ => some ⟨[(5 : ℚ), 6, 7], 7⟩) (Or.inl (by decide))⟩

/-- C10: a previously-unseen key is admitted unconditionally (the `else`
branch of the middleware never consults `RATE_LIMIT_REQUESTS`) and the
singleton record `[now]` is persisted; and whenever `RATE_LIMIT_REQUESTS`
is at least 1, this branch produces exactly the same decision and stored
record as running the prune-then-check-then-append branch on a record
with an empty timestamp sequence. -/
theorem fresh_key_branch_equivalent (s : RateLimitSettings) (now : ℚ)
    (hm : 0 < s.RATE_LIMIT_REQUESTS) :
    rateLimitCheck s now none =
      (RateLimitDecision.allow, some ⟨[now], now⟩) ∧
    ∀ lu : ℚ, rateLimitCheck s now (some ⟨[], lu⟩) = rateLimitCheck s now none := by
  refine ⟨rfl, fun lu => ?_⟩
  rw [rateLimitCheck]
  have hempty : pruneRequests s.RATE_LIMIT_PERIOD now ([] : List ℚ) = [] := rfl
  simp only [hempty, List.length_nil, Nat.not_le.mpr hm, if_false]
  rfl

/-- A failure of the persistent store (SQLAlchemy raising on the read
query or on `db.commit()`); the spec's `StorageError`. -/
inductive StorageError where
  | ioFailure
deriving DecidableEq, Repr

/-- The `try` block of `rate_limit_middleware` (`main.py`, lines 174-212)
with the store interactions made explicit: `readRec` is the outcome of the
read query for the caller's key, `commitWrite` the outcome of the commit
performed on the two admit paths.  The 429 answer is an early `return`
inside the `try`, not an exception, so it surfaces as a success value;
a raised `StorageError` propagates out of the block. -/
def rateLimitTryBlock (s : RateLimitSettings) (now : ℚ)
    (readRec : Except StorageError (Option RateLimitRecord))
    (commitWrite : Except StorageError Unit) :
    Except StorageError MiddlewareOutcome := do
  let rec ← readRec
  match rec with
  | some rl =>
      let requests := pruneRequests s.RATE_LIMIT_PERIOD now rl.requests
      if s.RATE_LIMIT_REQUESTS ≤ requests.length then
        pure MiddlewareOutcome.throttled429
      else do
        commitWrite
        pure MiddlewareOutcome.proceed
  | none => do
      commitWrite
      pure MiddlewareOutcome.proceed

/-- `rate_limit_middleware` with its `except Exception` handler
(`main.py`, lines 213-218): any storage failure inside the `try` block is
logged and the request proceeds to the wrapped handler (fail-open). -/
def rateLimitMiddlewareFallible (s : RateLimitSettings) (now : ℚ)
    (readRec : Except StorageError (Option RateLimitRecord))
    (commitWrite : Except StorageError Unit) : MiddlewareOutcome :=
  match rateLimitTryBlock s now readRec commitWrite with
  | Except.ok outcome => outcome
  | Except.error _ => MiddlewareOutcome.proceed

/-- C4: whenever the store raises a `StorageError` during the
rate-limiter call — on the read or on the write — the call admits the
request (fail-open); no exception escapes, since the handler is a total
function into `MiddlewareOutcome`. -/
theorem rate_limiter_fails_open (s : RateLimitSettings) (now : ℚ)
    (readRec : Except StorageError (Option RateLimitRecord))
    (commitWrite : Except StorageError Unit) (e : StorageError)
    (hraised : rateLimitTryBlock s now readRec commitWrite = Except.error e) :
    rateLimitMiddlewareFallible s now readRec commitWrite =
      MiddlewareOutcome.proceed := by
  rw [rateLimitMiddlewareFallible, hraised]

/-- C4 witness: a read that raises `StorageError` still lets the request
through. -/
theorem rate_limiter_fails_open_witness :
    rateLimitTryBlock ⟨60, 100⟩ 0 (Except.error StorageError.ioFailure)
        (Except.ok ()) = Except.error StorageError.ioFailure ∧
    rateLimitMiddlewareFallible ⟨60, 100⟩ 0
        (Except.error StorageError.ioFailure) (Except.ok ()) =
      MiddlewareOutcome.proceed :=
  ⟨rfl, rate_limiter_fails_open ⟨60, 100⟩ 0
    (Except.error StorageError.ioFailure) (Except.ok ())
    StorageError.ioFailure rfl⟩

/-- C10 witness: with limit 1, a fresh key at time 7 is admitted with
stored record `[7]`, identically to processing an empty record. -/
theorem fresh_key_branch_equivalent_witness :
    0 < (⟨60, 1⟩ : RateLimitSettings).RATE_LIMIT_REQUESTS ∧
    (rateLimitCheck ⟨60, 1⟩ 7 none =
      (RateLimitDecision.allow, some ⟨[(7 : ℚ)], 7⟩) ∧
    ∀ lu : ℚ, rateLimitCheck ⟨60, 1⟩ 7 (some ⟨[], lu⟩) =
      rateLimitCheck ⟨60, 1⟩ 7 none) :=
  ⟨by decide, fresh_key_branch_equivalent ⟨60, 1⟩ 7 (by decide)⟩

/-- The admitted call times when the per-key middleware body processes
the calls `ts` in order, threading the stored record through exactly as
`rate_limit_middleware` leaves it after each request (a single-threaded,
race-free sequence of calls with a working store). -/
def rateLimitRun (s : RateLimitSettings) :
    Option RateLimitRecord → List ℚ → List ℚ
  | _, [] => []
  | rec, now :: rest =>
      match rateLimitCheck s now rec with
      | (RateLimitDecision.allow, rec') => now :: rateLimitRun s rec' rest
      | (RateLimitDecision.reject, rec') => rateLimitRun s rec' rest

/-- Membership of a timestamp in the half-open window `[w, w + period)`
of length `RATE_LIMIT_PERIOD`; half-open matches the strict survival
test `now - t < RATE_LIMIT_PERIOD` of the pruning step. -/
def inWindow (s : RateLimitSettings) (w a : ℚ) : Bool :=
  decide (w ≤ a ∧ a < w + s.RATE_LIMIT_PERIOD)

/-- Invariant threaded through a run: `A` collects the times admitted so
far, `t` is a lower bound for all future call times.  A missing stored
record forces no admissions yet, and an existing record stores every
admitted time that is still inside a window reaching `t`, with at least
its admitted multiplicity. -/
def RunInv (s : RateLimitSettings) (t : ℚ) (A : List ℚ) :
    Option RateLimitRecord → Prop
  | none => A = []
  | some r => ∀ x : ℚ, t - x < s.RATE_LIMIT_PERIOD →
      A.count x ≤ r.requests.count x

/-- Inductive step for the sliding-window bound: if the invariant and the
window bound hold of the history `A`, they keep holding when the pending
sorted calls `ts` are processed. -/
theorem rateLimitRun_window_bound (s : RateLimitSettings)
    (hm : 0 < s.RATE_LIMIT_REQUESTS) :
    ∀ (ts : List ℚ) (rec : Option RateLimitRecord) (A : List ℚ) (t : ℚ),
      List.Sorted (· ≤ ·) ts → (∀ t' ∈ ts, t ≤ t') →
      (∀ a ∈ A, a ≤ t) → RunInv s t A rec →
      (∀ w : ℚ, A.countP (inWindow s w) ≤ s.RATE_LIMIT_REQUESTS) →
      ∀ w : ℚ, (A ++ rateLimitRun s rec ts).countP (inWindow s w) ≤
        s.RATE_LIMIT_REQUESTS := by
  intro ts
  induction ts with
  | nil =>
      intro rec A t _ _ _ _ hWB w
      simpa [rateLimitRun] using hWB w
  | cons now rest ih =>
      intro rec A t hsort hlow hA hinv hWB w
      have hsort' : List.Sorted (· ≤ ·) rest := hsort.of_cons
      have hlow' : ∀ t' ∈ rest, now ≤ t' :=
        fun t' ht' => (List.sorted_cons.mp hsort).1 t' ht'
      have htnow : t ≤ now := hlow now (List.mem_cons_self _ _)
      cases rec with
      | none =>
          have hAnil : A = [] := hinv
          subst hAnil
          have hrun : rateLimitRun s none (now :: rest) =
              now :: rateLimitRun s (some ⟨[now], now⟩) rest := rfl
          rw [hrun, List.nil_append, show (now :: rateLimitRun s (some ⟨[now], now⟩) rest) =
            [now] ++ rateLimitRun s (some ⟨[now], now⟩) rest from rfl]
          refine ih (some ⟨[now], now⟩) [now] now hsort' hlow' ?_ ?_ ?_ w
          · intro a ha
            simp only [List.mem_singleton] at ha
            exact le_of_eq ha
          · intro x _
            exact le_refl _
          · intro w'
            exact le_trans (List.countP_le_length _) (by simpa using hm)
      | some r =>
          by_cases hfull : s.RATE_LIMIT_REQUESTS ≤
              (pruneRequests s.RATE_LIMIT_PERIOD now r.requests).length
          · -- rejected call: record and history unchanged
            have hrun : rateLimitRun s (some r) (now :: rest) =
                rateLimitRun s (some r) rest := by
              rw [rateLimitRun, rateLimitCheck]
              simp only [if_pos hfull]
            rw [hrun]
            refine ih (some r) A now hsort' hlow'
              (fun a ha => le_trans (hA a ha) htnow) ?_ hWB w
            intro x hx
            exact hinv x (lt_of_le_of_lt (sub_le_sub_right htnow x) hx)
          · -- admitted call: now is appended to history and record
            have hlen : (pruneRequests s.RATE_LIMIT_PERIOD now r.requests).length <
                s.RATE_LIMIT_REQUESTS := Nat.lt_of_not_le hfull
            have hrun : rateLimitRun s (some r) (now :: rest) =
                now :: rateLimitRun s
                  (some ⟨pruneRequests s.RATE_LIMIT_PERIOD now r.requests ++ [now], now⟩)
                  rest := by
              rw [rateLimitRun, rateLimitCheck]
              simp only [if_neg hfull]
            rw [hrun, show A ++ now :: rateLimitRun s
                (some ⟨pruneRequests s.RATE_LIMIT_PERIOD now r.requests ++ [now], now⟩) rest =
              (A ++ [now]) ++ rateLimitRun s
                (some ⟨pruneRequests s.RATE_LIMIT_PERIOD now r.requests ++ [now], now⟩) rest by
              rw [List.append_assoc]; rfl]
            have hcount : ∀ x : ℚ, now - x < s.RATE_LIMIT_PERIOD →
                A.count x ≤ (pruneRequests s.RATE_LIMIT_PERIOD now r.requests).count x := by
              intro x hx
              have h1 : A.count x ≤ r.requests.count x :=
                hinv x (lt_of_le_of_lt (sub_le_sub_right htnow x) hx)
              have h2 : (pruneRequests s.RATE_LIMIT_PERIOD now r.requests).count x =
                  r.requests.count x :=
                List.count_filter (by simpa using hx)
              rw [h2]; exact h1
            refine ih _ (A ++ [now]) now hsort' hlow' ?_ ?_ ?_ w
            · intro a ha
              rcases List.mem_append.mp ha with h | h
              · exact le_trans (hA a h) htnow
              · simp only [List.mem_singleton] at h
                exact le_of_eq h
            · intro x hx
              rw [List.count_append, List.count_append]
              exact Nat.add_le_add_right (hcount x hx) _
            · intro w'
              rw [List.countP_append]
              by_cases hin : w' ≤ now ∧ now < w' + s.RATE_LIMIT_PERIOD
              · have hone : List.countP (inWindow s w') [now] = 1 := by
                  simp [inWindow, hin]
                rw [hone]
                have hsub : List.countP (inWindow s w') A ≤
                    List.countP (fun a => decide (now - a < s.RATE_LIMIT_PERIOD)) A := by
                  refine List.countP_mono_left ?_
                  intro x _ hx
                  rw [inWindow, decide_eq_true_eq] at hx
                  rw [decide_eq_true_eq]
                  have := hin.2
                  have := hx.1
                  linarith
                have hperm : (A.filter (fun a => decide (now - a < s.RATE_LIMIT_PERIOD))).Subperm
                    (pruneRequests s.RATE_LIMIT_PERIOD now r.requests) := by
                  rw [List.subperm_ext_iff]
                  intro x hxmem
                  have hxrec : now - x < s.RATE_LIMIT_PERIOD := by
                    simpa using List.of_mem_filter hxmem
                  rw [List.count_filter (by simpa using hxrec)]
                  have h2 : (pruneRequests s.RATE_LIMIT_PERIOD now r.requests).count x =
                      r.requests.count x :=
                    List.count_filter (by simpa using hxrec)
                  rw [h2]
                  exact hinv x (lt_of_le_of_lt (sub_le_sub_right htnow x) hxrec)
                have hlenle : List.countP (fun a => decide (now - a < s.RATE_LIMIT_PERIOD)) A ≤
                    (pruneRequests s.RATE_LIMIT_PERIOD now r.requests).length := by
                  rw [List.countP_eq_length_filter]
                  exact hperm.length_le
                omega
              · have hzero : List.countP (inWindow s w') [now] = 0 := by
                  simp [inWindow, hin]
                rw [hzero]
                simpa using hWB w'

/-- C1: with positive `RATE_LIMIT_PERIOD` and positive
`RATE_LIMIT_REQUESTS`, (a) immediately after any successful admit
decision the stored timestamp list has length at most
`RATE_LIMIT_REQUESTS`, and (b) over any single-threaded, race-free
sequence of calls for one key (non-decreasing call times, starting from
the unseen key), the number of admitted requests inside any window
`[w, w + RATE_LIMIT_PERIOD)` never exceeds `RATE_LIMIT_REQUESTS`. -/
theorem rate_limiter_invariant_and_window_bound (s : RateLimitSettings)
    (hp : 0 < s.RATE_LIMIT_PERIOD) (hm : 0 < s.RATE_LIMIT_REQUESTS)
    (ts : List ℚ) (hsort : List.Sorted (· ≤ ·) ts) :
    (∀ (now : ℚ) (rec : Option RateLimitRecord) (r' : RateLimitRecord),
      rateLimitCheck s now rec = (RateLimitDecision.allow, some r') →
      r'.requests.length ≤ s.RATE_LIMIT_REQUESTS) ∧
    (∀ w : ℚ, (rateLimitRun s none ts).countP (inWindow s w) ≤
      s.RATE_LIMIT_REQUESTS) := by
  constructor
  · intro now rec r' h
    cases rec with
    | none =>
        rw [rateLimitCheck] at h
        have : (⟨[now], now⟩ : RateLimitRecord) = r' := by
          simpa using congrArg Prod.snd h
        rw [← this]
        simpa using hm
    | some r =>
        rw [rateLimitCheck] at h
        by_cases hfull : s.RATE_LIMIT_REQUESTS ≤
            (pruneRequests s.RATE_LIMIT_PERIOD now r.requests).length
        · rw [if_pos hfull] at h
          exact absurd (congrArg Prod.fst h) (by simp)
        · rw [if_neg hfull] at h
          have : (⟨pruneRequests s.RATE_LIMIT_PERIOD now r.requests ++ [now], now⟩ :
              RateLimitRecord) = r' := by
            simpa using congrArg Prod.snd h
          rw [← this]
          simp only [List.length_append, List.length_singleton]
          exact Nat.lt_of_not_le hfull
  · cases ts with
    | nil =>
        intro w
        simp [rateLimitRun]
    | cons now rest =>
        have hlow : ∀ t' ∈ now :: rest, now ≤ t' := by
          intro t' ht'
          rcases List.mem_cons.mp ht' with rfl | h
          · exact le_refl _
          · exact (List.sorted_cons.mp hsort).1 t' h
        intro w
        have := rateLimitRun_window_bound s hm (now :: rest) none [] now
          hsort hlow (by simp) rfl (by simp) w
        simpa using this

/-- C1 witness: limit 3 per 60-second window over the call times
`0, 1, 2, 3, 61`; the length invariant holds and every 60-second window
holds at most 3 admitted requests. -/
theorem rate_limiter_invariant_and_window_bound_witness :
    ((0 : ℚ) < (⟨60, 3⟩ : RateLimitSettings).RATE_LIMIT_PERIOD ∧
      0 < (⟨60, 3⟩ : RateLimitSettings).RATE_LIMIT_REQUESTS ∧
      List.Sorted (· ≤ ·) [(0 : ℚ), 1, 2, 3, 61]) ∧
    ((∀ (now : ℚ) (rec : Option RateLimitRecord) (r' : RateLimitRecord),
      rateLimitCheck ⟨60, 3⟩ now rec = (RateLimitDecision.allow, some r') →
      r'.requests.length ≤ (⟨60, 3⟩ : RateLimitSettings).RATE_LIMIT_REQUESTS) ∧
    (∀ w : ℚ, (rateLimitRun ⟨60, 3⟩ none [(0 : ℚ), 1, 2, 3, 61]).countP
        (inWindow ⟨60, 3⟩ w) ≤
      (⟨60, 3⟩ : RateLimitSettings).RATE_LIMIT_REQUESTS)) :=
  ⟨⟨by norm_num, by norm_num, by norm_num [List.sorted_cons]⟩,
    rate_limiter_invariant_and_window_bound ⟨60, 3⟩ (by norm_num) (by norm_num)
      [(0 : ℚ), 1, 2, 3, 61] (by norm_num [List.sorted_cons])⟩

/-- The two operation kinds whose handlers update usage statistics:
`/api/humanize` (`main.py`, lines 436-461) and `/api/detect`
(`main.py`, lines 504-529). -/
inductive OperationKind where
  | humanize
  | detect
deriving DecidableEq, Repr

/-- A row of the `usage_stats` table (`models.py`, lines 133-146), keyed
by `(user_id, year, month, day)`.  `humanize_requests`, `detect_requests`
and `words_processed` default to 0, `total_processing_time` to 0.0, when
a row is created without passing them. -/
structure UsageStat where
  user_id : String
  year : ℕ
  month : ℕ
  day : ℕ
  humanize_requests : ℕ
  detect_requests : ℕ
  words_processed : ℕ
  total_processing_time : ℚ
deriving DecidableEq, Repr

/-- The usage-statistics upsert block shared by the two handlers in
`main.py`: if a row for `(user_id, year, month, day)` exists, increment
the kind's counter by 1 and add the word count and processing time;
otherwise insert a fresh row carrying the kind's counter at 1, the word
count and the processing time, with the other counter at its column
default 0. -/
def updateUsageStat (user_id : String) (year month day : ℕ)
    (kind : OperationKind) (word_count : ℕ) (processing_time : ℚ) :
    Option UsageStat → UsageStat
  | some stat =>
      match kind with
      | OperationKind.humanize =>
          { stat with
            humanize_requests := stat.humanize_requests + 1
            words_processed := stat.words_processed + word_count
            total_processing_time := stat.total_processing_time + processing_time }
      | OperationKind.detect =>
          { stat with
            detect_requests := stat.detect_requests + 1
            words_processed := stat.words_processed + word_count
            total_processing_time := stat.total_processing_time + processing_time }
  | none =>
      match kind with
      | OperationKind.humanize =>
          { user_id := user_id, year := year, month := month, day := day
            humanize_requests := 1, detect_requests := 0
            words_processed := word_count, total_processing_time := processing_time }
      | OperationKind.detect =>
          { user_id := user_id, year := year, month := month, day := day
            humanize_requests := 0, detect_requests := 1
            words_processed := word_count, total_processing_time := processing_time }

/-- A completed operation as the accounting sees it: its kind, its word
count, and its processing time in seconds. -/
abbrev UsageOp := OperationKind × ℕ × ℚ

/-- Apply the usage-statistics upsert once per operation, threading the
row for the fixed `(user_id, year, month, day)` through the sequence. -/
def runUsageUpdates (user_id : String) (year month day : ℕ) :
    Option UsageStat → List UsageOp → Option UsageStat
  | stat, [] => stat
  | stat, (kind, wc, pt) :: ops =>
      runUsageUpdates user_id year month day
        (some (updateUsageStat user_id year month day kind wc pt stat)) ops

/-- Applying the upsert to an existing row adds the word counts, the
processing times and the per-kind operation counts componentwise, and
never touches the key fields. -/
theorem runUsageUpdates_some (user_id : String) (year month day : ℕ)
    (ops : List UsageOp) :
    ∀ stat : UsageStat,
      runUsageUpdates user_id year month day (some stat) ops =
        some { stat with
          humanize_requests := stat.humanize_requests +
            ops.countP (fun op => decide (op.1 = OperationKind.humanize))
          detect_requests := stat.detect_requests +
            ops.countP (fun op => decide (op.1 = OperationKind.detect))
          words_processed := stat.words_processed +
            (ops.map (fun op => op.2.1)).sum
          total_processing_time := stat.total_processing_time +
            (ops.map (fun op => op.2.2)).sum } := by
  induction ops with
  | nil => intro stat; simp [runUsageUpdates]
  | cons op ops ih =>
      intro stat
      obtain ⟨kind, wc, pt⟩ := op
      rw [runUsageUpdates, ih]
      cases kind <;>
        simp only [updateUsageStat, List.countP_cons, List.map_cons,
          List.sum_cons, decide_eq_true_eq, Option.some.injEq,
          UsageStat.mk.injEq, reduceCtorEq, if_true, if_false, eq_self_iff_true,
          Bool.false_eq_true, ite_true, ite_false] <;>
        refine ⟨?_, ?_, ?_, ?_, ?_, ?_, ?_, ?_⟩ <;>
        first | trivial | omega | ring

/-- C6: starting from no row (a new record whose counters are all zero),
applying the usage-accounting update N ≥ 1 times on the same
`(user, date)` with word counts `w1..wN` and processing times `p1..pN`
yields a row whose `words_processed` is `w1 + ... + wN`, whose
`total_processing_time` is `p1 + ... + pN`, and whose
`humanize_requests` and `detect_requests` each count the updates of that
kind; the key fields are the given user and date. -/
theorem usage_accounting_additive (user_id : String) (year month day : ℕ)
    (op : UsageOp) (ops : List UsageOp) :
    ∃ stat : UsageStat,
      runUsageUpdates user_id year month day none (op :: ops) = some stat ∧
      stat.words_processed = ((op :: ops).map (fun o => o.2.1)).sum ∧
      stat.total_processing_time = ((op :: ops).map (fun o => o.2.2)).sum ∧
      stat.humanize_requests =
        (op :: ops).countP (fun o => decide (o.1 = OperationKind.humanize)) ∧
      stat.detect_requests =
        (op :: ops).countP (fun o => decide (o.1 = OperationKind.detect)) ∧
      stat.user_id = user_id ∧ stat.year = year ∧
      stat.month = month ∧ stat.day = day := by
  obtain ⟨kind, wc, pt⟩ := op
  refine ⟨{ user_id := user_id, year := year, month := month, day := day
            humanize_requests := ((kind, wc, pt) :: ops).countP
              (fun o => decide (o.1 = OperationKind.humanize))
            detect_requests := ((kind, wc, pt) :: ops).countP
              (fun o => decide (o.1 = OperationKind.detect))
            words_processed := (((kind, wc, pt) :: ops).map (fun o => o.2.1)).sum
            total_processing_time :=
              (((kind, wc, pt) :: ops).map (fun o => o.2.2)).sum },
          ?_, rfl, rfl, rfl, rfl, rfl, rfl, rfl, rfl⟩
  rw [runUsageUpdates, runUsageUpdates_some]
  cases kind <;>
    simp only [updateUsageStat, List.countP_cons, List.map_cons,
      List.sum_cons, decide_eq_true_eq, Option.some.injEq,
      UsageStat.mk.injEq, reduceCtorEq, eq_self_iff_true,
      Bool.false_eq_true, ite_true, ite_false] <;>
    refine ⟨?_, ?_, ?_, ?_, ?_, ?_, ?_, ?_⟩ <;>
    first | trivial | omega | ring

/-- Python's non-overlapping substring count `hay.count(needle)` for a
nonempty needle: scan left to right and, at each occurrence, resume after
the matched characters. -/
def pyCount (needle : List Char) : List Char → ℕ
  | [] => 0
  | c :: rest =>
      if needle.isPrefixOf (c :: rest) then
        1 + pyCount needle (rest.drop (needle.length - 1))
      else
        pyCount needle rest
termination_by l => l.length
decreasing_by
  all_goals simp [List.length_drop]
  all_goals omega

/-- Python's `str.lower` restricted to the character map (the indicator
phrases are ASCII, where the two agree). -/
def pyLower (l : List Char) : List Char :=
  l.map Char.toLower

/-- The `formal_indicators` list of the `/api/detect` handler in `app.py`
(lines 840-841). -/
def formal_indicators : List String :=
  ["furthermore", "additionally", "moreover", "thus", "therefore",
    "consequently", "hence", "as a result", "in conclusion"]

/-- `indicator_count` of the `/api/detect` handler in `app.py` (line 842):
the total number of (non-overlapping) occurrences of any indicator phrase
in the lower-cased input. -/
def indicator_count (text : String) : ℕ :=
  (formal_indicators.map (fun ind => pyCount ind.data (pyLower text.data))).sum

/-- Python's `str.split('.')`: cut at every `'.'`, keeping empty
fragments; the empty string yields the single empty fragment. -/
def splitOnDot : List Char → List (List Char)
  | [] => [[]]
  | c :: rest =>
      if c = '.' then
        [] :: splitOnDot rest
      else
        match splitOnDot rest with
        | [] => [[c]]
        | s :: ss => (c :: s) :: ss

/-- The whitespace characters `str.strip()` removes (ASCII range). -/
def pyIsSpace (c : Char) : Bool :=
  c = ' ' || c = '\t' || c = '\n' || c = '\r' || c = '\x0b' || c = '\x0c'

/-- Python's `str.strip()`: drop whitespace from both ends. -/
def pyStrip (l : List Char) : List Char :=
  ((l.dropWhile pyIsSpace).reverse.dropWhile pyIsSpace).reverse

/-- `sentence_lengths` of the `/api/detect` handler in `app.py`
(lines 845-846): split the raw input on `'.'`, keep the fragments that
are non-empty after stripping, and take their stripped lengths. -/
def sentence_lengths (text : String) : List ℕ :=
  (((splitOnDot text.data).filter (fun sent => !(pyStrip sent).isEmpty)).map
    (fun sent => (pyStrip sent).length))

/-- `length_uniformity` of the `/api/detect` handler in `app.py`
(lines 847-851): the population standard deviation of the sentence
lengths divided by their mean (0 when there are no sentences or the mean
is not positive).  Python floats are modelled by the reals, `** 0.5` by
the real square root. -/
noncomputable def length_uniformity (text : String) : ℝ :=
  let lengths := sentence_lengths text
  if lengths = [] then 0
  else
    let mean_length : ℝ := (lengths.map (fun l => (l : ℝ))).sum / lengths.length
    let std_dev : ℝ :=
      Real.sqrt ((lengths.map (fun l => ((l : ℝ) - mean_length) ^ 2)).sum /
        lengths.length)
    if 0 < mean_length then std_dev / mean_length else 0

/-- The response shape of `/api/detect`: score out of 100 plus the three
analysis components (`DetectionResult` in `schemas.py`). -/
structure DetectionResult where
  ai_score : ℝ
  human_score : ℝ
  formal_language : ℝ
  sentence_uniformity : ℝ
  repetitive_patterns : ℝ

/-- Python's `round(x, 1)`: the nearest multiple of one tenth (ties at a
representable half are rounded to even by Python; no claim in scope lands
on a tie, so rounding to the nearest integer multiple suffices). -/
noncomputable def round1 (x : ℝ) : ℝ :=
  (round (10 * x) : ℤ) / 10

/-- The inline detection computation of the `/api/detect` handler in
`app.py` (lines 836-898): indicator counting, sentence-length uniformity,
the clamped score `min(100, max(0, 20 + indicator_count*5 + 50*(1 - length_uniformity)))`,
and the response payload with its three analysis components.  The
unrounded score feeds `repetitive_patterns`; the reported scores are
rounded to one decimal. -/
noncomputable def detect_ai_content_api (text : String) : DetectionResult :=
  let ic : ℝ := (indicator_count text : ℝ)
  let lu : ℝ := length_uniformity text
  let ai_score : ℝ := min 100 (max 0 (20 + ic * 5 + 50 * (1 - lu)))
  { ai_score := round1 ai_score
    human_score := round1 (100 - ai_score)
    formal_language := min 100 (ic * 10)
    sentence_uniformity := min 100 ((1 - lu) * 100)
    repetitive_patterns := min 100 (ai_score * 0.5) }

/-- C2: the heuristic detector on the primary `/api/detect`
request-handling path (the inline algorithm of `app.py`, which the
deployment entrypoints serve) is a deterministic pure function: two calls
on the same text produce identical `DetectionResult`s — the same
`ai_score`, `human_score` and analysis values — with no randomness and no
I/O (it is a total function of the text alone). -/
theorem heuristic_detector_deterministic (text : String) :
    detect_ai_content_api text = detect_ai_content_api text ∧
    (detect_ai_content_api text).ai_score = (detect_ai_content_api text).ai_score ∧
    (detect_ai_content_api text).human_score = (detect_ai_content_api text).human_score ∧
    (detect_ai_content_api text).formal_language =
      (detect_ai_content_api text).formal_language ∧
    (detect_ai_content_api text).sentence_uniformity =
      (detect_ai_content_api text).sentence_uniformity ∧
    (detect_ai_content_api text).repetitive_patterns =
      (detect_ai_content_api text).repetitive_patterns :=
  ⟨rfl, rfl, rfl, rfl, rfl, rfl⟩

/-- C5: on the empty string the heuristic detector reports
`ai_score = 70.0`, `human_score = 30.0`, `formal_language = 0`,
`sentence_uniformity = 100.0` and `repetitive_patterns = 35.0`. -/
theorem heuristic_detector_empty_string :
    (detect_ai_content_api "").ai_score = 70 ∧
    (detect_ai_content_api "").human_score = 30 ∧
    (detect_ai_content_api "").formal_language = 0 ∧
    (detect_ai_content_api "").sentence_uniformity = 100 ∧
    (detect_ai_content_api "").repetitive_patterns = 35 := by
  have hdata : ("" : String).data = [] := rfl
  have hic : indicator_count "" = 0 := by
    simp [indicator_count, formal_indicators, pyLower, hdata, pyCount]
  have hsl : sentence_lengths "" = [] := by
    simp [sentence_lengths, hdata, splitOnDot, pyStrip]
  have hlu : length_uniformity "" = 0 := by
    rw [length_uniformity, hsl]
    simp
  rw [detect_ai_content_api, hic, hlu]
  norm_num [round1, round_eq]

/-- The placeholder default of `AI_DETECTOR_API_URL`
(`main.py`, line 43; `config.py`, line 28): `os.getenv` yields the
placeholder exactly when the environment variable is unset. -/
def AI_DETECTOR_API_URL (env : Option String) : String :=
  env.getD "https://ai-detector-api.example.com"

/-- The detector the `/api/detect` handler ends up using. -/
inductive DetectorChoice where
  | localHeuristic
  | externalService
deriving DecidableEq, Repr

/-- The branch at the top of the `/api/detect` handler (`main.py`, lines
493-497): `if not settings.AI_DETECTOR_API_URL or settings.AI_DETECTOR_API_URL == "https://ai-detector-api.example.com"`
— a falsy (empty) URL or the placeholder selects the local heuristic,
any other URL calls the external detector service. -/
def detectorPath (url : String) : DetectorChoice :=
  if url = "" ∨ url = "https://ai-detector-api.example.com" then
    DetectorChoice.localHeuristic
  else
    DetectorChoice.externalService

/-- C7: the `/api/detect` handler uses the local heuristic detector
exactly when `AI_DETECTOR_API_URL` is empty or equals the placeholder
`https://ai-detector-api.example.com` — equivalently, when the
environment variable is unset, set to the empty string, or set to the
placeholder — and calls the external detector service for every other
configured URL. -/
theorem detector_fallback_exactly_on_placeholder :
    (∀ url : String, detectorPath url = DetectorChoice.localHeuristic ↔
      (url = "" ∨ url = "https://ai-detector-api.example.com")) ∧
    (∀ url : String, detectorPath url = DetectorChoice.externalService ↔
      (url ≠ "" ∧ url ≠ "https://ai-detector-api.example.com")) ∧
    (∀ env : Option String,
      detectorPath (AI_DETECTOR_API_URL env) = DetectorChoice.localHeuristic ↔
      (env = none ∨ env = some "" ∨
        env = some "https://ai-detector-api.example.com")) := by
  have hmain : ∀ url : String,
      detectorPath url = DetectorChoice.localHeuristic ↔
      (url = "" ∨ url = "https://ai-detector-api.example.com") := by
    intro url
    rw [detectorPath]
    by_cases h : url = "" ∨ url = "https://ai-detector-api.example.com" <;>
      simp [h]
  refine ⟨hmain, fun url => ?_, fun env => ?_⟩
  · rw [detectorPath]
    by_cases h : url = "" ∨ url = "https://ai-detector-api.example.com"
    · simp [h]
      tauto
    · simp [h]
      tauto
  · cases env with
    | none => simp [AI_DETECTOR_API_URL, hmain]
    | some u => simp [AI_DETECTOR_API_URL, hmain]

end Andikar
